import Mathlib

set_option maxRecDepth 1000000
set_option maxHeartbeats 1000000

/-!
Verification of the selector_calculator program: canonical signature
construction, Keccak-256 based selector/topic derivation, CSV report
aggregation and CSV field escaping, modelled from `src/main.rs`.
-/

namespace SelectorCalculator

/-! ## Keccak-256 (the digest used by `sha3::Keccak256`, original 0x01 padding) -/

/-- Truncate a natural number to a 64-bit word. -/
def w64 (n : Nat) : Nat := n % 18446744073709551616

/-- Left rotation of a 64-bit word by `n` bits. -/
def rotl64 (x n : Nat) : Nat :=
  w64 ((w64 x <<< (n % 64)) ||| (w64 x >>> (64 - n % 64)))

/-- Lane lookup in a 25-lane state, row-major order `x + 5*y`. -/
def laneAt (st : List Nat) (i : Nat) : Nat := st.getD i 0

/-- Keccak-f[1600] round constants. -/
def keccakRC : List Nat :=
  [1, 32898, 9223372036854808714,
   9223372039002292224, 32907, 2147483649,
   9223372039002292353, 9223372036854808585, 138,
   136, 2147516425, 2147483658,
   2147516555, 9223372036854775947, 9223372036854808713,
   9223372036854808579, 9223372036854808578, 9223372036854775936,
   32778, 9223372039002259466, 9223372039002292353,
   9223372036854808704, 2147483649, 9223372039002292232]

/-- The rho rotation offsets, indexed by lane `x + 5*y`. -/
def keccakRotOff : List Nat :=
  List.flatten
    [[0, 1, 62, 28, 27],
     [36, 44, 6, 55, 20],
     [3, 10, 43, 25, 39],
     [41, 45, 15, 21, 8],
     [18, 2, 61, 56, 14]]

/-- The theta step of a Keccak-f round. -/
def theta (a : List Nat) : List Nat :=
  let c := (List.range 5).map fun x =>
    laneAt a x ^^^ laneAt a (x + 5) ^^^ laneAt a (x + 10) ^^^
    laneAt a (x + 15) ^^^ laneAt a (x + 20)
  let d := (List.range 5).map fun x =>
    laneAt c ((x + 4) % 5) ^^^ rotl64 (laneAt c ((x + 1) % 5)) 1
  (List.range 25).map fun i => laneAt a i ^^^ laneAt d (i % 5)

/-- The combined rho and pi steps: lane `(x,y)` of the result is lane
`((x+3y) mod 5, x)` of the input, rotated by its rho offset. -/
def rhoPi (a : List Nat) : List Nat :=
  (List.range 25).map fun i =>
    let x := i % 5
    let y := i / 5
    let src := (x + 3 * y) % 5 + 5 * x
    rotl64 (laneAt a src) (laneAt keccakRotOff src)

/-- The chi step of a Keccak-f round. -/
def chi (b : List Nat) : List Nat :=
  (List.range 25).map fun i =>
    let x := i % 5
    let y := i / 5
    laneAt b i ^^^
      ((laneAt b ((x + 1) % 5 + 5 * y) ^^^ 18446744073709551615) &&&
       laneAt b ((x + 2) % 5 + 5 * y))

/-- The iota step: xor the round constant into lane 0. -/
def iota (rc : Nat) (a : List Nat) : List Nat :=
  (laneAt a 0 ^^^ rc) :: a.tail

/-- One Keccak-f[1600] round. -/
def keccakRound (st : List Nat) (rc : Nat) : List Nat :=
  iota rc (chi (rhoPi (theta st)))

/-- The full 24-round Keccak-f[1600] permutation. -/
def keccakF (st : List Nat) : List Nat :=
  keccakRC.foldl keccakRound st

/-- Interpret up to eight bytes as a little-endian 64-bit lane. -/
def laneOfBytes (bs : List Nat) : Nat :=
  bs.foldr (fun b acc => acc * 256 + b) 0

/-- The eight little-endian bytes of a 64-bit lane. -/
def laneBytes (x : Nat) : List Nat :=
  [x % 256, x / 256 % 256, x / 65536 % 256, x / 16777216 % 256,
   x / 4294967296 % 256, x / 1099511627776 % 256,
   x / 281474976710656 % 256, x / 72057594037927936 % 256]

/-- Xor a 136-byte rate block into the first 17 lanes of the state. -/
def xorBlock (st block : List Nat) : List Nat :=
  (List.range 25).map fun i =>
    if i < 17 then laneAt st i ^^^ laneOfBytes ((block.drop (8 * i)).take 8)
    else laneAt st i

/-- Multi-rate padding with the original Keccak domain byte 0x01
(not the SHA-3 byte 0x06), rate 136 bytes. -/
def keccakPad (msg : List Nat) : List Nat :=
  let r := msg.length % 136
  if r = 135 then msg ++ [0x81]
  else msg ++ 0x01 :: (List.replicate (134 - r) 0 ++ [0x80])

/-- Absorb `fuel` rate blocks of `msg` into the state. -/
def absorbBlocks : Nat → List Nat → List Nat → List Nat
  | 0, st, _ => st
  | fuel + 1, st, msg => absorbBlocks fuel (keccakF (xorBlock st (msg.take 136))) (msg.drop 136)

/-- Keccak-256 of a byte sequence: pad, absorb, and squeeze 32 bytes. -/
def keccak256 (msg : List Nat) : List Nat :=
  let padded := keccakPad msg
  let st := absorbBlocks (padded.length / 136) (List.replicate 25 0) padded
  (st.map laneBytes).flatten.take 32

/-! ## UTF-8 encoding of signature strings (Rust `str::as_bytes`) -/

/-- The UTF-8 encoding of one character, as a list of byte values. -/
def charUtf8 (c : Char) : List Nat :=
  let n := c.toNat
  if n < 128 then [n]
  else if n < 2048 then [192 + n / 64, 128 + n % 64]
  else if n < 65536 then [224 + n / 4096, 128 + n / 64 % 64, 128 + n % 64]
  else [240 + n / 262144, 128 + n / 4096 % 64, 128 + n / 64 % 64, 128 + n % 64]

/-- The UTF-8 bytes of a string. -/
def utf8Bytes (s : String) : List Nat :=
  s.toList.flatMap charUtf8

/-! ## Lowercase hex encoding (the `hex::encode` call) -/

/-- The lowercase hex digit table used by `hex::encode`. -/
def hexLowerTable : List Char :=
  "0123456789abcdef".toList

/-- The two lowercase hex characters of one byte. -/
def byteToHex (b : Nat) : List Char :=
  [hexLowerTable.getD (b / 16) '0', hexLowerTable.getD (b % 16) '0']

/-- Lowercase hex encoding of a byte sequence. -/
def hexEncode (bytes : List Nat) : String :=
  ⟨bytes.flatMap byteToHex⟩

/-! ## The ABI entry model (`AbiEntry`, `AbiInput` in `main.rs`) -/

/-- One ABI input parameter: its type descriptor string. -/
structure AbiInput where
  param_type : String

/-- One parsed ABI entry: kind string, optional name, optional inputs,
and the `anonymous` flag (defaulting to `false` when absent). -/
structure AbiEntry where
  kind : String
  name : Option String
  inputs : Option (List AbiInput)
  anonymous : Bool

/-- Canonical signature of an entry:
`name.unwrap_or("unknown") ++ "(" ++ input types joined by "," ++ ")"`. -/
def entrySignature (entry : AbiEntry) : String :=
  let name := entry.name.getD "unknown"
  let input_types :=
    String.intercalate "," ((entry.inputs.getD []).map fun inp => inp.param_type)
  name ++ "(" ++ input_types ++ ")"

/-- Function selector: `0x` plus the hex of the first 4 bytes of the
Keccak-256 digest of the signature bytes. -/
def functionSelector (signature : String) : String :=
  "0x" ++ hexEncode ((keccak256 (utf8Bytes signature)).take 4)

/-- Event topic: `0x` plus the hex of the full 32-byte Keccak-256 digest
of the signature bytes. -/
def eventTopic (signature : String) : String :=
  "0x" ++ hexEncode (keccak256 (utf8Bytes signature))

/-! ## Per-contract entry processing (the `for entry in abi_entries` loop) -/

/-- One step of the entry loop: push a (signature, identifier) pair onto
the functions accumulator for kind `function`, onto the events accumulator
for kind `event` (with the ` [anonymous]` display suffix when the entry is
anonymous), and ignore any other kind. -/
def entryStep (acc : List (String × String) × List (String × String))
    (entry : AbiEntry) : List (String × String) × List (String × String) :=
  if entry.kind = "function" then
    (acc.1 ++ [(entrySignature entry, functionSelector (entrySignature entry))], acc.2)
  else if entry.kind = "event" then
    if entry.anonymous then
      (acc.1, acc.2 ++ [(entrySignature entry ++ " [anonymous]",
                         eventTopic (entrySignature entry))])
    else
      (acc.1, acc.2 ++ [(entrySignature entry, eventTopic (entrySignature entry))])
  else acc

/-- The `contract_functions` and `contract_events` accumulators after the
entry loop, in declaration order. -/
def processEntries (entries : List AbiEntry) :
    List (String × String) × List (String × String) :=
  entries.foldl entryStep ([], [])

/-! ## Global CSV aggregation (the `csv_events` / `csv_selectors` tables) -/

/-- A CSV row: `[contractName, signature, identifier]`. -/
abbrev Row := String × String × String

/-- Header row of the events table. -/
def csvHeaderEvents : Row := ("contractName", "event", "topic")

/-- Header row of the selectors table. -/
def csvHeaderSelectors : Row := ("contractName", "function", "selector")

/-- Per-contract step: append one divider row (name, empty, empty) to each
table, then the contract's event rows to the events table and its function
rows to the selectors table, first column empty. -/
def contractStep (acc : List Row × List Row) (c : String × List AbiEntry) :
    List Row × List Row :=
  let pe := processEntries c.2
  (acc.1 ++ (c.1, "", "") :: pe.2.map (fun r => ("", r.1, r.2)),
   acc.2 ++ (c.1, "", "") :: pe.1.map (fun r => ("", r.1, r.2)))

/-- The two global CSV tables (events, selectors) after processing all
contracts in discovery order, starting from the header rows. -/
def csvTables (contracts : List (String × List AbiEntry)) : List Row × List Row :=
  contracts.foldl contractStep ([csvHeaderEvents], [csvHeaderSelectors])

/-! ## CSV field escaping (`escape_csv_field` in `main.rs`) -/

/-- Replace each quote character by two quote characters
(Rust `field.replace(CHAR_QUOTE, two quotes)`). -/
def replaceQuote : List Char → List Char
  | [] => []
  | c :: cs => if c = '"' then '"' :: '"' :: replaceQuote cs else c :: replaceQuote cs

/-- Escape a CSV field: if it contains a comma, a quote or a newline, wrap
it in quotes with internal quotes doubled; otherwise return it unchanged. -/
def escape_csv_field (field : String) : String :=
  if ',' ∈ field.toList ∨ '"' ∈ field.toList ∨ '\n' ∈ field.toList then
    ⟨'"' :: (replaceQuote field.toList ++ ['"'])⟩
  else field

/-- Collapse each doubled quote character back to a single one. -/
def undoubleQuotes : List Char → List Char
  | [] => []
  | [c] => [c]
  | c1 :: c2 :: cs =>
    if c1 = '"' ∧ c2 = '"' then '"' :: undoubleQuotes cs
    else c1 :: undoubleQuotes (c2 :: cs)

/-- Standard CSV un-quoting, the inverse direction of the spec's quoting
rule: a field wrapped in quote characters has them stripped and its
internal doubled quotes collapsed; any other field is returned unchanged. -/
def unescape_csv_field (s : String) : String :=
  let l := s.toList
  if 2 ≤ l.length ∧ l.head? = some '"' ∧ l.getLast? = some '"' then
    ⟨undoubleQuotes (l.drop 1).dropLast⟩
  else s

/-! ## Spec-side row characterizations -/

/-- The (signature, selector) row contributed by an entry to the functions
list: present exactly for kind `function`. -/
def functionRowOf (e : AbiEntry) : Option (String × String) :=
  if e.kind = "function" then
    some (entrySignature e, functionSelector (entrySignature e))
  else none

/-- The (display signature, topic) row contributed by an entry to the
events list: present exactly for kind `event`, with the ` [anonymous]`
suffix on the display signature when the entry is anonymous. -/
def eventRowOf (e : AbiEntry) : Option (String × String) :=
  if e.kind = "event" then
    some (if e.anonymous then entrySignature e ++ " [anonymous]" else entrySignature e,
          eventTopic (entrySignature e))
  else none

/-- The rows one contract contributes to the events table: a divider row
followed by its event data rows. -/
def eventRows (c : String × List AbiEntry) : List Row :=
  (c.1, "", "") :: (c.2.filterMap eventRowOf).map fun r => ("", r.1, r.2)

/-- The rows one contract contributes to the selectors table: a divider row
followed by its function data rows. -/
def functionRows (c : String × List AbiEntry) : List Row :=
  (c.1, "", "") :: (c.2.filterMap functionRowOf).map fun r => ("", r.1, r.2)

/-! ## Helper lemmas: Keccak output shape -/

theorem length_chi (b : List Nat) : (chi b).length = 25 := by
  simp [chi]

theorem length_keccakRound (rc : Nat) (b : List Nat) :
    (keccakRound b rc).length = 25 := by
  simp [keccakRound, iota, List.length_tail, length_chi]

theorem length_foldl_keccakRound (rcs : List Nat) (st : List Nat)
    (h : st.length = 25) : (rcs.foldl keccakRound st).length = 25 := by
  induction rcs generalizing st with
  | nil => simpa using h
  | cons rc rest ih =>
    simp only [List.foldl_cons]
    exact ih _ (length_keccakRound rc _)

theorem length_keccakF (st : List Nat) (h : st.length = 25) :
    (keccakF st).length = 25 :=
  length_foldl_keccakRound keccakRC st h

theorem length_xorBlock (st block : List Nat) : (xorBlock st block).length = 25 := by
  simp [xorBlock]

theorem length_absorbBlocks (fuel : Nat) (st msg : List Nat)
    (h : st.length = 25) : (absorbBlocks fuel st msg).length = 25 := by
  induction fuel generalizing st msg with
  | zero => simpa [absorbBlocks] using h
  | succ n ih =>
    simp only [absorbBlocks]
    exact ih _ _ (length_keccakF _ (length_xorBlock _ _))

theorem length_flatten_laneBytes (l : List Nat) :
    (l.map laneBytes).flatten.length = 8 * l.length := by
  induction l with
  | nil => simp
  | cons x t ih => simp [laneBytes, ih, Nat.mul_succ]

theorem keccak256_length (m : List Nat) : (keccak256 m).length = 32 := by
  unfold keccak256
  rw [List.length_take, length_flatten_laneBytes,
      length_absorbBlocks _ _ _ (by simp)]
  omega

theorem laneBytes_lt (x : Nat) : ∀ b ∈ laneBytes x, b < 256 := by
  intro b hb
  simp only [laneBytes, List.mem_cons, List.not_mem_nil, or_false] at hb
  rcases hb with h | h | h | h | h | h | h | h <;> subst h <;> omega

theorem keccak256_lt (m : List Nat) : ∀ b ∈ keccak256 m, b < 256 := by
  intro b hb
  unfold keccak256 at hb
  have hb' := List.take_subset _ _ hb
  rw [List.mem_flatten] at hb'
  obtain ⟨l, hl, hbl⟩ := hb'
  rw [List.mem_map] at hl
  obtain ⟨x, _, rfl⟩ := hl
  exact laneBytes_lt x b hbl

/-! ## Helper lemmas: hex encoding -/

theorem hexEncode_length (bs : List Nat) : (hexEncode bs).length = 2 * bs.length := by
  show (bs.flatMap byteToHex).length = 2 * bs.length
  induction bs with
  | nil => simp
  | cons b t ih => simp [byteToHex, ih, Nat.mul_succ]

theorem getD_mem {α : Type} (l : List α) (n : Nat) (d : α)
    (h : n < l.length) : l.getD n d ∈ l := by
  induction l generalizing n with
  | nil => simp at h
  | cons a t ih =>
    cases n with
    | zero => simp [List.getD]
    | succ m =>
      simp only [List.getD_cons_succ, List.mem_cons]
      exact Or.inr (ih m (by simpa using h))

theorem byteToHex_mem (b : Nat) (hb : b < 256) :
    ∀ c ∈ byteToHex b, c ∈ hexLowerTable := by
  intro c hc
  have h16 : b / 16 < 16 := by omega
  have h16' : b % 16 < 16 := by omega
  simp only [byteToHex, List.mem_cons, List.not_mem_nil, or_false] at hc
  rcases hc with rfl | rfl
  · exact getD_mem _ _ _ (by simpa [hexLowerTable] using h16)
  · exact getD_mem _ _ _ (by simpa [hexLowerTable] using h16')

theorem flatMap_take_byteToHex (n : Nat) (l : List Nat) :
    (l.take n).flatMap byteToHex = (l.flatMap byteToHex).take (2 * n) := by
  induction l generalizing n with
  | nil => simp
  | cons b t ih =>
    cases n with
    | zero => simp
    | succ m =>
      simp only [List.take_succ_cons, List.flatMap_cons, byteToHex,
        List.cons_append, List.nil_append, ih]
      rw [show 2 * (m + 1) = 2 * m + 1 + 1 from by omega,
        List.take_succ_cons, List.take_succ_cons]

/-! ## Helper lemmas: identifier lengths -/

theorem functionSelector_length (s : String) : (functionSelector s).length = 10 := by
  unfold functionSelector
  rw [String.length_append, hexEncode_length, List.length_take, keccak256_length]
  rfl

theorem eventTopic_length (s : String) : (eventTopic s).length = 66 := by
  unfold eventTopic
  rw [String.length_append, hexEncode_length, keccak256_length]
  rfl

theorem hex_chars_in_table (bs : List Nat) (hbs : ∀ b ∈ bs, b < 256) :
    ∀ c ∈ bs.flatMap byteToHex, c ∈ hexLowerTable := by
  intro c hc
  rw [List.mem_flatMap] at hc
  obtain ⟨b, hb, hcb⟩ := hc
  exact byteToHex_mem b (hbs b hb) c hcb

/-! ## Helper lemmas: entry loop and table characterizations -/

theorem foldl_entryStep (es : List AbiEntry) :
    ∀ fs evs : List (String × String),
      es.foldl entryStep (fs, evs) =
        (fs ++ es.filterMap functionRowOf, evs ++ es.filterMap eventRowOf) := by
  induction es with
  | nil => intro fs evs; simp
  | cons e t ih =>
    intro fs evs
    simp only [List.foldl_cons]
    by_cases hf : e.kind = "function"
    · simp [entryStep, hf, ih, functionRowOf, eventRowOf]
    · by_cases he : e.kind = "event"
      · cases ha : e.anonymous <;>
          simp [entryStep, hf, he, ha, ih, functionRowOf, eventRowOf]
      · simp [entryStep, hf, he, ih, functionRowOf, eventRowOf]

theorem processEntries_eq (es : List AbiEntry) :
    processEntries es = (es.filterMap functionRowOf, es.filterMap eventRowOf) := by
  simpa [processEntries] using foldl_entryStep es [] []

theorem foldl_contractStep (cs : List (String × List AbiEntry)) :
    ∀ A B : List Row,
      cs.foldl contractStep (A, B) =
        (A ++ cs.flatMap eventRows, B ++ cs.flatMap functionRows) := by
  induction cs with
  | nil => intro A B; simp
  | cons c t ih =>
    intro A B
    simp only [List.foldl_cons, contractStep, processEntries_eq]
    rw [ih]
    simp [eventRows, functionRows]

/-! ## Helper lemmas: CSV quoting round trip -/

theorem replaceQuote_eq_nil (l : List Char) (h : replaceQuote l = []) : l = [] := by
  cases l with
  | nil => rfl
  | cons c cs =>
    simp only [replaceQuote] at h
    split at h <;> simp at h

theorem undouble_replaceQuote (l : List Char) :
    undoubleQuotes (replaceQuote l) = l := by
  induction l with
  | nil => rfl
  | cons c cs ih =>
    by_cases hc : c = '"'
    · subst hc
      rw [show replaceQuote ('"' :: cs) = '"' :: '"' :: replaceQuote cs from by
            simp [replaceQuote]]
      rw [show undoubleQuotes ('"' :: '"' :: replaceQuote cs) =
            '"' :: undoubleQuotes (replaceQuote cs) from by simp [undoubleQuotes]]
      rw [ih]
    · simp only [replaceQuote, if_neg hc]
      cases hR : replaceQuote cs with
      | nil =>
        have hcs : cs = [] := replaceQuote_eq_nil cs hR
        subst hcs
        simp [undoubleQuotes]
      | cons d ds =>
        rw [show undoubleQuotes (c :: d :: ds) = c :: undoubleQuotes (d :: ds) from by
              simp [undoubleQuotes, hc]]
        rw [← hR, ih]

theorem unescape_escape (f : String) :
    unescape_csv_field (escape_csv_field f) = f := by
  obtain ⟨l⟩ := f
  by_cases hs : ',' ∈ l ∨ '"' ∈ l ∨ '\n' ∈ l
  · have he : escape_csv_field ⟨l⟩ = ⟨'"' :: (replaceQuote l ++ ['"'])⟩ := by
      unfold escape_csv_field
      exact if_pos hs
    rw [he]
    unfold unescape_csv_field
    rw [if_pos]
    · show String.mk (undoubleQuotes ((('"' :: (replaceQuote l ++ ['"'])).drop 1).dropLast)) = _
      rw [show ('"' :: (replaceQuote l ++ ['"'])).drop 1 = replaceQuote l ++ ['"'] from rfl,
        List.dropLast_concat, undouble_replaceQuote]
    · refine ⟨?_, rfl, ?_⟩
      · show 2 ≤ ('"' :: (replaceQuote l ++ ['"'])).length
        simp
      · show ('"' :: (replaceQuote l ++ ['"'])).getLast? = some '"'
        rw [← List.cons_append, List.getLast?_concat]
  · have he : escape_csv_field ⟨l⟩ = ⟨l⟩ := by
      unfold escape_csv_field
      exact if_neg hs
    rw [he]
    push_neg at hs
    obtain ⟨h1, h2, h3⟩ := hs
    unfold unescape_csv_field
    rw [if_neg]
    intro hcond
    obtain ⟨hlen, hhead, hlast⟩ := hcond
    cases l with
    | nil => simp at hlen
    | cons c cs =>
      have hc : c = '"' := by simpa [String.toList] using hhead
      exact h2 (by simp [hc])

/-! ## Claim theorems -/

/-- C1: the signature `"transfer(address,uint256)"` derives the selector
`0xa9059cbb`, and its full digest is the original-padding Keccak-256 value,
pinning the digest variant used by the program. -/
theorem keccak_known_vector_transfer :
    functionSelector "transfer(address,uint256)" = "0xa9059cbb" ∧
    eventTopic "transfer(address,uint256)" =
      "0xa9059cbb2ab09eb219583f4a59a5d0623ade346d962bcd4e46b11da047c9049b" := by
  constructor <;> decide

/-- C2: a function entry's row carries the canonical signature together
with `0x` plus the hex of the first 4 bytes of the 32-byte digest of the
UTF-8 signature bytes, and that selector string has exactly 10 characters. -/
theorem function_selector_shape (n : Option String) (ins : Option (List AbiInput))
    (a : Bool) :
    (processEntries [⟨"function", n, ins, a⟩]).1 =
      [(entrySignature ⟨"function", n, ins, a⟩,
        "0x" ++ hexEncode ((keccak256 (utf8Bytes (entrySignature ⟨"function", n, ins, a⟩))).take 4))] ∧
    (keccak256 (utf8Bytes (entrySignature ⟨"function", n, ins, a⟩))).length = 32 ∧
    ((processEntries [⟨"function", n, ins, a⟩]).1.map fun r => r.2.length) = [10] := by
  refine ⟨?_, keccak256_length _, ?_⟩
  · simp [processEntries, entryStep, functionSelector]
  · simp [processEntries, entryStep, functionSelector_length]

/-- C3: an event entry's row carries `0x` plus the hex of the full 32-byte
digest of the UTF-8 bytes of the canonical signature, and that topic string
has exactly 66 characters. -/
theorem event_topic_shape (n : Option String) (ins : Option (List AbiInput))
    (a : Bool) :
    (processEntries [⟨"event", n, ins, a⟩]).2 =
      [((if a then entrySignature ⟨"event", n, ins, a⟩ ++ " [anonymous]"
         else entrySignature ⟨"event", n, ins, a⟩),
        "0x" ++ hexEncode (keccak256 (utf8Bytes (entrySignature ⟨"event", n, ins, a⟩))))] ∧
    (keccak256 (utf8Bytes (entrySignature ⟨"event", n, ins, a⟩))).length = 32 ∧
    ((processEntries [⟨"event", n, ins, a⟩]).2.map fun r => r.2.length) = [66] := by
  refine ⟨?_, keccak256_length _, ?_⟩
  · cases a <;> simp [processEntries, entryStep, eventTopic]
  · cases a <;> simp [processEntries, entryStep, eventTopic_length]

/-- C4: the canonical signature is the name (or the literal `"unknown"` when
the name is missing) followed by the parenthesized comma-join of the input
type strings; missing or empty inputs give `name()`. -/
theorem canonical_signature_shape :
    (∀ e : AbiEntry, entrySignature e =
      e.name.getD "unknown" ++ "(" ++
        String.intercalate "," ((e.inputs.getD []).map fun inp => inp.param_type) ++ ")") ∧
    (∀ (k : String) (nm : Option String) (a : Bool),
      entrySignature ⟨k, nm, none, a⟩ = nm.getD "unknown" ++ "()") ∧
    (∀ (k : String) (nm : Option String) (a : Bool),
      entrySignature ⟨k, nm, some [], a⟩ = nm.getD "unknown" ++ "()") ∧
    (∀ (k : String) (ins : Option (List AbiInput)) (a : Bool),
      entrySignature ⟨k, none, ins, a⟩ =
        "unknown" ++ "(" ++
          String.intercalate "," ((ins.getD []).map fun inp => inp.param_type) ++ ")") := by
  refine ⟨fun e => rfl, fun k nm a => ?_, fun k nm a => ?_, fun k ins a => rfl⟩ <;>
  · show nm.getD "unknown" ++ "(" ++ String.intercalate "," [] ++ ")" = nm.getD "unknown" ++ "()"
    rw [show String.intercalate "," [] = "" from rfl, String.append_empty,
      String.append_assoc]
    rfl

/-- C5: an anonymous event's report row shows the signature with the
` [anonymous]` suffix, while its topic is computed from the unsuffixed
signature and equals the topic the same entry gets with `anonymous = false`. -/
theorem anonymous_event_display (n : Option String) (ins : Option (List AbiInput)) :
    (processEntries [⟨"event", n, ins, true⟩]).2 =
      [(entrySignature ⟨"event", n, ins, true⟩ ++ " [anonymous]",
        eventTopic (entrySignature ⟨"event", n, ins, true⟩))] ∧
    (processEntries [⟨"event", n, ins, true⟩]).2.map Prod.snd =
      (processEntries [⟨"event", n, ins, false⟩]).2.map Prod.snd := by
  constructor <;> simp [processEntries, entryStep, entrySignature]

/-- C6: each table is its header row, then per contract in discovery order
one divider row followed by one data row per matching entry in declaration
order; entries of any other kind contribute no row to either table. -/
theorem csv_tables_structure (contracts : List (String × List AbiEntry)) :
    (csvTables contracts).1 = csvHeaderEvents :: contracts.flatMap eventRows ∧
    (csvTables contracts).2 = csvHeaderSelectors :: contracts.flatMap functionRows ∧
    (∀ e : AbiEntry, e.kind ≠ "function" → e.kind ≠ "event" →
      functionRowOf e = none ∧ eventRowOf e = none) := by
  refine ⟨?_, ?_, fun e hf he => by simp [functionRowOf, eventRowOf, hf, he]⟩ <;>
  · unfold csvTables
    rw [foldl_contractStep]
    simp

/-- Witness for C6 at a concrete contract list and a concrete entry of
kind `constructor`. -/
theorem csv_tables_structure_check :
    ("constructor" : String) ≠ "function" ∧ ("constructor" : String) ≠ "event" ∧
    (functionRowOf ⟨"constructor", none, none, false⟩ = none ∧
     eventRowOf ⟨"constructor", none, none, false⟩ = none) :=
  ⟨by decide, by decide,
   (csv_tables_structure []).2.2 ⟨"constructor", none, none, false⟩
     (by decide) (by decide)⟩

/-- C7: `escape_csv_field` wraps a field in quotes with internal quotes
doubled exactly when it contains a comma, a quote or a newline, leaves it
unchanged otherwise, and standard CSV un-quoting recovers the original. -/
theorem escape_csv_field_correct (f : String) :
    ((',' ∈ f.toList ∨ '"' ∈ f.toList ∨ '\n' ∈ f.toList) →
      escape_csv_field f = ⟨'"' :: (replaceQuote f.toList ++ ['"'])⟩) ∧
    (¬(',' ∈ f.toList ∨ '"' ∈ f.toList ∨ '\n' ∈ f.toList) →
      escape_csv_field f = f) ∧
    unescape_csv_field (escape_csv_field f) = f := by
  refine ⟨fun h => ?_, fun h => ?_, unescape_escape f⟩
  · unfold escape_csv_field
    exact if_pos h
  · unfold escape_csv_field
    exact if_neg h

/-- Witness for C7 at the concrete comma-containing field `"a,b"`. -/
theorem escape_csv_field_correct_check :
    (',' ∈ "a,b".toList ∨ '"' ∈ "a,b".toList ∨ '\n' ∈ "a,b".toList) ∧
    escape_csv_field "a,b" = ⟨'"' :: (replaceQuote "a,b".toList ++ ['"'])⟩ ∧
    unescape_csv_field (escape_csv_field "a,b") = "a,b" :=
  ⟨Or.inl (by decide), (escape_csv_field_correct "a,b").1 (Or.inl (by decide)),
   (escape_csv_field_correct "a,b").2.2⟩

/-- C8: a function entry's output row does not depend on the `anonymous`
field: flipping it yields the same processed result. -/
theorem function_row_ignores_anonymous (n : Option String)
    (ins : Option (List AbiInput)) (a b : Bool) :
    processEntries [⟨"function", n, ins, a⟩] = processEntries [⟨"function", n, ins, b⟩] := by
  simp [processEntries, entryStep, entrySignature]

/-- C9: for every signature string, the selector hex digits (after `0x`)
are the first 8 hex digits of the event topic (after `0x`), both coming
from the same 32-byte digest. -/
theorem selector_prefix_of_topic (s : String) :
    (functionSelector s).toList.drop 2 = ((eventTopic s).toList.drop 2).take 8 := by
  have h1 : (functionSelector s).toList =
      '0' :: 'x' :: ((keccak256 (utf8Bytes s)).take 4).flatMap byteToHex := rfl
  have h2 : (eventTopic s).toList =
      '0' :: 'x' :: (keccak256 (utf8Bytes s)).flatMap byteToHex := rfl
  rw [h1, h2]
  simpa using flatMap_take_byteToHex 4 (keccak256 (utf8Bytes s))

/-- C10: every character after the `0x` prefix of a derived selector or
topic is a lowercase hex digit; no uppercase digit ever appears. -/
theorem identifiers_lowercase (s : String) :
    (((functionSelector s).toList.drop 2).all fun c => decide (c ∈ hexLowerTable)) = true ∧
    (((eventTopic s).toList.drop 2).all fun c => decide (c ∈ hexLowerTable)) = true := by
  have h1 : (functionSelector s).toList.drop 2 =
      ((keccak256 (utf8Bytes s)).take 4).flatMap byteToHex := rfl
  have h2 : (eventTopic s).toList.drop 2 =
      (keccak256 (utf8Bytes s)).flatMap byteToHex := rfl
  constructor
  · rw [h1, List.all_eq_true]
    intro c hc
    rw [decide_eq_true_eq]
    exact hex_chars_in_table _
      (fun b hb => keccak256_lt _ b (List.take_subset _ _ hb)) c hc
  · rw [h2, List.all_eq_true]
    intro c hc
    rw [decide_eq_true_eq]
    exact hex_chars_in_table _ (keccak256_lt _) c hc

end SelectorCalculator
